import Mathlib

/-!
Shallow embedding of the two Enki plugins
(`enki/plugins/ctags.py` and `enki/plugins/preview/preview_sync.py`)
and proofs of the specification claims about them.
-/

namespace Enki

/-! ## Scroll aligner (`PreviewSync._alignScrollAmount`) -/

/-- Embedding of `PreviewSync._alignScrollAmount`: the raw delta between the
source and target cursor positions, clamped first from below (top padding
constraint) and then from above (bottom padding constraint). -/
def alignScrollAmount (sourceGlobalTop sourceCursorBottom targetGlobalTop
    targetCursorBottom targetHeight targetCursorHeight padding : Int) : Int :=
  let delta := (sourceGlobalTop + sourceCursorBottom) -
               (targetGlobalTop + targetCursorBottom)
  let delta := max (-targetCursorBottom + targetCursorHeight + padding) delta
  let delta := min (targetHeight - targetCursorBottom - padding) delta
  delta

/-! ## Tag parser (`enki/plugins/ctags.py`)

The Python `Tag` objects form a parent/child pointer graph; we embed them as
an arena: every tag is a `TagE` stored in a list, and `parent`/`children`
are indices into that list.  Indices are allocated in record order, exactly
as the Python code allocates `Tag` objects.  A parse failure (Python
`IndexError` from a negative field index or `ValueError` from `int`) is
`none`. -/

/-- One tag in the arena: name, line number, optional parent index and the
list of child indices, mirroring the fields of the Python `Tag` class. -/
structure TagE where
  name : String
  lineNumber : Int
  parent : Option Nat
  children : List Nat
deriving DecidableEq, Repr

/-- The value returned by `parseTags`: the arena of all tags plus the list
of root indices (the Python `tags` list). -/
structure Forest where
  arena : List TagE
  roots : List Nat
deriving DecidableEq, Repr

/-- The loop state of `parseTags`: arena, roots and the `lastTag` cursor. -/
structure PTState where
  arena : List TagE
  roots : List Nat
  lastTag : Option Nat
deriving DecidableEq, Repr

/-- Splitting a character list at every occurrence of `sep`; `acc` is the
reversed current chunk.  This is Python `str.split(sep)` for a one-character
separator: the result always has at least one (possibly empty) chunk. -/
def splitOnCharAux (sep : Char) : List Char → List Char → List (List Char)
  | [], acc => [acc.reverse]
  | c :: cs, acc =>
    if c = sep then acc.reverse :: splitOnCharAux sep cs []
    else splitOnCharAux sep cs (c :: acc)

/-- Python `str.split(sep)` for a one-character separator. -/
def splitOnChar (sep : Char) (s : String) : List String :=
  (splitOnCharAux sep s.data []).map String.mk

/-- Whether the first character list is a prefix of the second. -/
def isPrefixOfChars : List Char → List Char → Bool
  | [], _ => true
  | _ :: _, [] => false
  | a :: as, b :: bs => a = b && isPrefixOfChars as bs

/-- Python substring membership `needle in hay` for strings: `needle`
occurs contiguously in `hay` (the empty string occurs in everything). -/
def isSubstrOf (needle hay : String) : Bool :=
  (List.range (hay.data.length + 1)).any fun i =>
    isPrefixOfChars needle.data (hay.data.drop i)

/-- The value of a decimal digit character. -/
def digitVal? (c : Char) : Option Nat :=
  if 48 ≤ c.toNat ∧ c.toNat ≤ 57 then some (c.toNat - 48) else none

/-- Accumulating decimal interpretation of a digit sequence; any non-digit
character fails. -/
def natOfDigits : List Char → Nat → Option Nat
  | [], acc => some acc
  | c :: cs, acc =>
    match digitVal? c with
    | some d => natOfDigits cs (acc * 10 + d)
    | none => none

/-- A non-empty all-digit sequence as a natural number. -/
def decimalNat? : List Char → Option Nat
  | [] => none
  | cs => natOfDigits cs 0

/-- Python `int(s)` on an optionally signed decimal string: `none` models
the `ValueError` raised on anything else. -/
def pyInt? (s : String) : Option Int :=
  match s.data with
  | '-' :: rest => (decimalNat? rest).map fun n => -(n : Int)
  | '+' :: rest => (decimalNat? rest).map fun n => (n : Int)
  | cs => (decimalNat? cs).map fun n => (n : Int)

/-- Python `str.splitlines` restricted to newline separators: empty string
gives no lines, and a trailing newline does not produce a trailing empty
line. -/
def splitlines (s : String) : List String :=
  if s = "" then []
  else
    let ls := splitOnChar '\n' s
    if ls.getLast? = some "" then ls.dropLast else ls

/-- Embedding of the inner `parseTag` helper of `parseTags`.  The line is
split on tabs; with exactly 5 fields the kind is field 3 and the line text
field 4 with no scope, otherwise the Python code reads `items[-3]`,
`items[-2]`, `items[-1]` (an `IndexError`, i.e. `none`, when there are fewer
than 3 fields).  The line number is the integer after the last `:` of the
line field (`ValueError`, i.e. `none`, when not an integer), and the scope
name is the text after the last `:` then the last `.` of the scope field. -/
def parseTag (line : String) : Option (String × Int × String × Option String) := do
  let items := splitOnChar '\t' line
  let name ← items.get? 0
  let (type_, lineText, scopeText) ←
    if items.length = 5 then do
      let t ← items.get? 3
      let l ← items.get? 4
      pure (t, l, (none : Option String))
    else do
      let t ← items.get? (items.length - 3)
      let l ← items.get? (items.length - 2)
      let sc ← items.get? (items.length - 1)
      if items.length ≥ 3 then
        pure (t, l, some sc)
      else
        none
  let lineNumber ← pyInt? ((splitOnChar ':' lineText).getLast?.getD "")
  let scope := scopeText.map fun sc =>
    ((splitOnChar '.' ((splitOnChar ':' sc).getLast?.getD "")).getLast?.getD "")
  pure (name, lineNumber, type_, scope)

/-- Embedding of the inner `findScope` helper: walk from the tag at index
`cur` up the parent chain until a tag whose name equals `scopeName` is found
(`scopeName = none` never matches, as Python `name == None` is false).
`fuel` bounds the recursion; the arenas built by `parseTags` have strictly
decreasing parent indices, so any `fuel` above the start index is enough. -/
def findScopeAux (arena : List TagE) :
    Nat → Option Nat → Option String → Option Nat
  | _, none, _ => none
  | 0, some _, _ => none
  | fuel + 1, some i, scopeName =>
    match arena.get? i with
    | none => none
    | some t =>
      if some t.name = scopeName then some i
      else
        match t.parent with
        | some p => findScopeAux arena fuel (some p) scopeName
        | none => none

/-- Appending child index `c` to the `children` of the tag at index `p`
(the Python `parent.children.append(tag)`); all other entries are kept. -/
def addChildAt : List TagE → Nat → Nat → List TagE
  | [], _, _ => []
  | t :: ts, 0, c => { t with children := t.children ++ [c] } :: ts
  | t :: ts, p + 1, c => t :: addChildAt ts p c

/-- One iteration of the `parseTags` loop on an already-parsed record
`(name, lineNumber, type_, scope)`: records whose kind is a substring of
the string `'variable'` (the `ignoredTypes` string) are skipped without
touching the state; otherwise the scope is resolved from `lastTag`, the new
tag is attached there (or becomes a root) and `lastTag` moves to it. -/
def applyRecord (st : PTState) (r : String × Int × String × Option String) :
    PTState :=
  let (name, lineNumber, type_, scope) := r
  if isSubstrOf type_ "variable" then st
  else
    let parent := findScopeAux st.arena (st.arena.length + 1) st.lastTag scope
    let n := st.arena.length
    let tag : TagE := ⟨name, lineNumber, parent, []⟩
    match parent with
    | some p =>
      ⟨addChildAt st.arena p n ++ [tag], st.roots, some n⟩
    | none =>
      ⟨st.arena ++ [tag], st.roots ++ [n], some n⟩

/-- Parsing of every line of the input in order; a single malformed line
makes the whole result fail, as the Python exception aborts `parseTags`. -/
def parseRecords : List String → Option (List (String × Int × String × Option String))
  | [] => some []
  | line :: rest => do
    let r ← parseTag line
    let rs ← parseRecords rest
    pure (r :: rs)

/-- Embedding of `parseTags`: parse every line, then fold the records
through `applyRecord` starting from an empty forest. -/
def parseTags (text : String) : Option Forest := do
  let records ← parseRecords (splitlines text)
  let st := records.foldl applyRecord ⟨[], [], none⟩
  pure ⟨st.arena, st.roots⟩

/-- The parent index of node `i` in a forest, when it exists. -/
def parentOf (F : Forest) (i : Nat) : Option Nat :=
  (F.arena.get? i).bind (·.parent)

/-- The end of the parent chain starting at `i`, following at most `fuel`
parent links. -/
def chainEnd (F : Forest) : Nat → Nat → Nat
  | 0, i => i
  | fuel + 1, i =>
    match parentOf F i with
    | some p => chainEnd F fuel p
    | none => i

/-- The parent indices stored in an arena always point strictly downwards;
this is the acyclicity invariant of the forest. -/
def ParentsDec (arena : List TagE) : Prop :=
  ∀ i t, arena.get? i = some t → ∀ p, t.parent = some p → p < i

/-- The root list contains exactly the indices of parentless tags. -/
def RootsChar (st : PTState) : Prop :=
  ∀ i, i ∈ st.roots ↔ ∃ t, st.arena.get? i = some t ∧ t.parent = none

/-- The `lastTag` cursor stays inside the arena. -/
def LastTagLt (st : PTState) : Prop :=
  ∀ j, st.lastTag = some j → j < st.arena.length

/-- The loop invariant of `parseTags`. -/
def Inv (st : PTState) : Prop :=
  ParentsDec st.arena ∧ RootsChar st ∧ LastTagLt st

/-! ## Extraction worker (`ProcessorThread` in `enki/plugins/ctags.py`)

The worker shares `_fileName`, `_text` and `_haveData` with the GUI thread
under a lock; `run` loops: copy the shared data and clear `_haveData` (one
lock region), call `processText` outside the lock, then under the lock
check `_haveData` again — if new data arrived it loops, otherwise it emits
`tagsReady` and exits.  We model each lock region as one atomic step and
record, for each `tagsReady` emission, the input text whose tags were
emitted. -/

/-- The position of the worker inside `ProcessorThread.run`:  not running,
about to copy the shared data at the top of the loop, or computing
`processText` on a copied text. -/
inductive WorkerPhase where
  | stopped
  | atLoopTop
  | computing (text : Option String)
deriving DecidableEq, Repr

/-- Shared data of `ProcessorThread` plus the worker phase and the list of
inputs whose results were emitted via `tagsReady`, in emission order. -/
structure ThreadState where
  text : Option String
  haveData : Bool
  phase : WorkerPhase
  emitted : List (Option String)
deriving DecidableEq, Repr

/-- The atomic steps of the `ProcessorThread` protocol: a `process` call
from the GUI thread, the copy-and-clear lock region at the top of `run`'s
loop, and the completion-check lock region after `processText` returns. -/
inductive ThreadEvent where
  | process (t : String)
  | read
  | check
deriving DecidableEq, Repr

/-- One atomic step of `ProcessorThread`.  `process` stores the new text,
sets `_haveData` and starts the thread when it is not running; `read`
copies the shared text and clears `_haveData`; `check` emits and stops only
when no newer data arrived during the computation, and otherwise loops. -/
def threadStep (s : ThreadState) : ThreadEvent → ThreadState
  | .process t =>
    { s with
      text := some t
      haveData := true
      phase := match s.phase with
               | .stopped => .atLoopTop
               | p => p }
  | .read =>
    match s.phase with
    | .atLoopTop => { s with phase := .computing s.text, haveData := false }
    | _ => s
  | .check =>
    match s.phase with
    | .computing t =>
      if s.haveData then { s with phase := .atLoopTop }
      else { s with emitted := s.emitted ++ [t], phase := .stopped }
    | _ => s

/-- Running a sequence of protocol steps. -/
def threadRun (events : List ThreadEvent) (s : ThreadState) : ThreadState :=
  events.foldl threadStep s

/-- A freshly constructed `ProcessorThread`: no data, not running. -/
def threadInit : ThreadState := ⟨none, false, .stopped, []⟩

/-! ## Worker error propagation (`processText` and `ProcessorThread.run`) -/

/-- The failure modes of one extraction pass: the external `ctags`
invocation raised, or `parseTags` raised on the tool's output. -/
inductive ExtractionError where
  | toolFailure
  | parseFailure
deriving DecidableEq, Repr

/-- Embedding of `processText`: run the external `ctags` tool on the text
and parse its standard output.  The tool lives outside the repository, so
its behaviour is an oracle argument: `none` when the invocation itself
raises, `some out` when it writes `out`.  The `try/finally` in the source
only removes the scratch directory and catches nothing, so both failure
modes propagate to the caller. -/
def processTextE (toolOutput : Option String) : Except ExtractionError Forest :=
  match toolOutput with
  | none => .error .toolFailure
  | some out =>
    match parseTags out with
    | some f => .ok f
    | none => .error .parseFailure

/-- Embedding of one `ProcessorThread.run` pass with no newer queued input:
`run` calls `processText` with no exception handler, so a failure escapes
the worker's `run` method (the `.error` case) and `tagsReady` is never
emitted; on success the parsed forest is emitted. -/
def runPass (toolOutput : Option String) :
    Except ExtractionError (List Forest) :=
  match processTextE toolOutput with
  | .ok f => .ok [f]
  | .error e => .error e

/-- The main-thread side: `tagsReady` is connected to `TagModel.setTags`,
so the displayed tree is replaced only by an emitted result; a pass that
ends in an error emits nothing and the display keeps its previous value. -/
def displayAfter (display : Forest) (r : Except ExtractionError (List Forest)) :
    Forest :=
  match r with
  | .ok (f :: _) => f
  | .ok [] => display
  | .error _ => display

/-! ## Preview synchronization (`enki/plugins/preview/preview_sync.py`)

The text-to-preview direction: `__init__` returns before any setup when the
approximate matcher `findApproxTextInTarget` is absent; otherwise it
connects `_onCursorPositionChanged` to the cursor signal and creates the
300 ms `_cursorMovementTimer` whose expiry calls `syncTextToPreview`, which
requests the page's plain text and hands it to the background
`findApproxTextInTarget` job (the Matching phase). -/

/-- Abstract state of `PreviewSync`.  `cap` models the availability of the
module-level `findApproxTextInTarget`; `connected` records whether
`__init__` performed its setup; `previewToTextSyncRunning` and
`dockVisible` model the guard of `_onCursorPositionChanged`; `timer` is
the remaining time of `_cursorMovementTimer` in milliseconds (`none` when
not running); `matchingStarts` counts the Matching-phase invocations
(`syncTextToPreview` passing its guard and requesting the plain text that
feeds the approximate-match job). -/
structure SyncState where
  cap : Bool
  connected : Bool
  previewToTextSyncRunning : Bool
  dockVisible : Bool
  timer : Option Nat
  matchingStarts : Nat
deriving DecidableEq, Repr

/-- The interval of `_cursorMovementTimer`, in milliseconds. -/
def cursorMovementInterval : Nat := 300

/-- Embedding of `PreviewSync.__init__`: when `findApproxTextInTarget` is
absent it returns before any setup, leaving the machinery unconnected and
the timer never created; otherwise it connects the handlers and creates the
timer (not yet running) with `_previewToTextSyncRunning = False`. -/
def previewSyncInit (cap dockVisible : Bool) : SyncState :=
  if !cap then ⟨cap, false, false, dockVisible, none, 0⟩
  else ⟨cap, true, false, dockVisible, none, 0⟩

/-- Embedding of `syncTextToPreview`: return immediately when the matcher
is absent; otherwise stop the timer and enter the Matching phase. -/
def syncTextToPreview (st : SyncState) : SyncState :=
  if !st.cap then st
  else { st with timer := none, matchingStarts := st.matchingStarts + 1 }

/-- Embedding of `_onCursorPositionChanged`.  The slot only runs when
`__init__` connected it; it ignores the event while a preview-to-text sync
is running or while the preview dock is hidden; otherwise the
`stop`/`start` pair restarts the debounce timer at its full interval. -/
def onCursorPositionChanged (st : SyncState) : SyncState :=
  if !st.connected then st
  else if !st.previewToTextSyncRunning && st.dockVisible then
    { st with timer := some cursorMovementInterval }
  else st

/-- One millisecond of elapsed time: a running timer counts down and fires
`syncTextToPreview` on expiry (a repeating `QTimer` restarts at its full
interval; `syncTextToPreview` then stops it). -/
def syncTick (st : SyncState) : SyncState :=
  match st.timer with
  | none => st
  | some 0 => st
  | some 1 => syncTextToPreview { st with timer := some cursorMovementInterval }
  | some (r + 2) => { st with timer := some (r + 1) }

/-- The events relevant to the text-to-preview debounce claims. -/
inductive SyncEvent where
  | cursorMoved
  | tick
deriving DecidableEq, Repr

/-- Dispatch of one event to the `PreviewSync` model. -/
def syncStep (st : SyncState) : SyncEvent → SyncState
  | .cursorMoved => onCursorPositionChanged st
  | .tick => syncTick st

/-- Running a sequence of events through the `PreviewSync` model. -/
def syncRun (events : List SyncEvent) (st : SyncState) : SyncState :=
  events.foldl syncStep st

/-! ### Structural lemmas about the parser -/

theorem addChildAt_length (a : List TagE) (p c : Nat) :
    (addChildAt a p c).length = a.length := by
  induction a generalizing p with
  | nil => rfl
  | cons t ts ih => cases p <;> simp [addChildAt, ih]

theorem get?_addChildAt (a : List TagE) (p c i : Nat) :
    (addChildAt a p c).get? i =
      (a.get? i).map fun t =>
        if i = p then { t with children := t.children ++ [c] } else t := by
  induction a generalizing p i with
  | nil => simp [addChildAt]
  | cons t ts ih =>
    cases p with
    | zero => cases i <;> simp [addChildAt]
    | succ p =>
      cases i with
      | zero => simp [addChildAt]
      | succ i => simpa [addChildAt] using ih p i

theorem applyRecord_arena_length (st : PTState)
    (r : String × Int × String × Option String) :
    (applyRecord st r).arena.length =
      st.arena.length + (if isSubstrOf r.2.2.1 "variable" then 0 else 1) := by
  obtain ⟨name, ln, kind, scope⟩ := r
  by_cases hs : isSubstrOf kind "variable" <;>
    simp only [applyRecord, hs, if_true, if_false, Bool.false_eq_true]
  · simp
  · cases hp : findScopeAux st.arena (st.arena.length + 1) st.lastTag scope <;>
      simp [addChildAt_length]

theorem findScopeAux_lt_length (arena : List TagE) :
    ∀ (fuel : Nat) (cur : Option Nat) (sc : Option String) (j : Nat),
      findScopeAux arena fuel cur sc = some j → j < arena.length := by
  intro fuel
  induction fuel with
  | zero =>
    intro cur sc j h
    cases cur <;> simp [findScopeAux] at h
  | succ fuel ih =>
    intro cur sc j h
    cases cur with
    | none => simp [findScopeAux] at h
    | some i =>
      rw [findScopeAux] at h
      cases hg : arena.get? i with
      | none => rw [hg] at h; cases h
      | some t =>
        rw [hg] at h
        dsimp only at h
        have hlt : i < arena.length := by
          by_contra hge
          rw [List.get?_eq_none.mpr (by omega)] at hg
          cases hg
        by_cases he : some t.name = sc
        · rw [if_pos he] at h
          cases h
          exact hlt
        · rw [if_neg he] at h
          cases hp : t.parent with
          | none => rw [hp] at h; cases h
          | some p => rw [hp] at h; exact ih (some p) sc j h

theorem inv_init : Inv ⟨[], [], none⟩ := by
  refine ⟨?_, ?_, ?_⟩
  · intro i t hget
    simp at hget
  · intro i
    simp
  · intro j hj
    simp at hj

theorem inv_applyRecord {st : PTState} (h : Inv st)
    (r : String × Int × String × Option String) : Inv (applyRecord st r) := by
  obtain ⟨hdec, hroots, hlast⟩ := h
  obtain ⟨name, ln, kind, scope⟩ := r
  by_cases hs : isSubstrOf kind "variable"
  · simpa [applyRecord, hs] using ⟨hdec, hroots, hlast⟩
  · simp only [applyRecord, hs, Bool.false_eq_true, if_false]
    cases hp : findScopeAux st.arena (st.arena.length + 1) st.lastTag scope with
    | none =>
      refine ⟨?_, ?_, ?_⟩
      · intro i t hget q hpq
        rcases lt_trichotomy i st.arena.length with hi | hi | hi
        · rw [List.get?_append hi] at hget
          exact hdec i t hget q hpq
        · subst hi
          rw [List.get?_concat_length] at hget
          cases hget
          cases hpq
        · rw [List.get?_eq_none.mpr (by simp; omega)] at hget
          cases hget
      · intro i
        constructor
        · intro hi
          rcases List.mem_append.mp hi with hm | hm
          · obtain ⟨t, hget, hpar⟩ := (hroots i).mp hm
            have hlt : i < st.arena.length := by
              by_contra hge
              rw [List.get?_eq_none.mpr (by omega)] at hget
              cases hget
            exact ⟨t, by rw [List.get?_append hlt]; exact hget, hpar⟩
          · simp at hm
            subst hm
            exact ⟨⟨name, ln, none, []⟩, List.get?_concat_length _ _, rfl⟩
        · rintro ⟨t, hget, hpar⟩
          rcases lt_trichotomy i st.arena.length with hi | hi | hi
          · rw [List.get?_append hi] at hget
            exact List.mem_append.mpr (Or.inl ((hroots i).mpr ⟨t, hget, hpar⟩))
          · subst hi
            simp
          · rw [List.get?_eq_none.mpr (by simp; omega)] at hget
            cases hget
      · intro j hj
        simp at hj
        simp [hj]
    | some p =>
      have hplt : p < st.arena.length := findScopeAux_lt_length _ _ _ _ _ hp
      refine ⟨?_, ?_, ?_⟩
      · intro i t hget q hpq
        rcases lt_trichotomy i st.arena.length with hi | hi | hi
        · rw [List.get?_append (by rw [addChildAt_length]; exact hi)] at hget
          rw [get?_addChildAt] at hget
          cases ho : st.arena.get? i with
          | none => rw [ho] at hget; cases hget
          | some t0 =>
            rw [ho] at hget
            simp only [Option.map_some'] at hget
            cases hget
            have hpar : ∀ q', t0.parent = some q' → q' < i := hdec i t0 ho
            by_cases hip : i = p
            · rw [if_pos hip] at hpq
              exact hpar q hpq
            · rw [if_neg hip] at hpq
              exact hpar q hpq
        · subst hi
          have hcl : (addChildAt st.arena p st.arena.length ++
              [(⟨name, ln, some p, []⟩ : TagE)]).get?
                ((addChildAt st.arena p st.arena.length).length) =
              some ⟨name, ln, some p, []⟩ := List.get?_concat_length _ _
          rw [addChildAt_length] at hcl
          rw [hcl] at hget
          cases hget
          cases hpq
          exact hplt
        · rw [List.get?_eq_none.mpr (by simp [addChildAt_length]; omega)] at hget
          cases hget
      · intro i
        rw [hroots i]
        rcases lt_trichotomy i st.arena.length with hi | hi | hi
        · constructor
          · rintro ⟨t, hget, hpar⟩
            refine ⟨if i = p then { t with children := t.children ++ [st.arena.length] } else t, ?_, ?_⟩
            · rw [List.get?_append (by rw [addChildAt_length]; exact hi),
                get?_addChildAt, hget]
              rfl
            · by_cases hip : i = p <;> simp [hip, hpar]
          · rintro ⟨t, hget, hpar⟩
            rw [List.get?_append (by rw [addChildAt_length]; exact hi),
              get?_addChildAt] at hget
            cases ho : st.arena.get? i with
            | none => rw [ho] at hget; cases hget
            | some t0 =>
              rw [ho] at hget
              simp only [Option.map_some'] at hget
              cases hget
              refine ⟨t0, rfl, ?_⟩
              by_cases hip : i = p
              · rw [if_pos hip] at hpar
                exact hpar
              · rw [if_neg hip] at hpar
                exact hpar
        · subst hi
          constructor
          · rintro ⟨t, hget, hpar⟩
            rw [List.get?_eq_none.mpr (by omega)] at hget
            cases hget
          · rintro ⟨t, hget, hpar⟩
            have hcl : (addChildAt st.arena p st.arena.length ++
                [(⟨name, ln, some p, []⟩ : TagE)]).get?
                  ((addChildAt st.arena p st.arena.length).length) =
                some ⟨name, ln, some p, []⟩ := List.get?_concat_length _ _
            rw [addChildAt_length] at hcl
            rw [hcl] at hget
            cases hget
            cases hpar
        · constructor
          · rintro ⟨t, hget, hpar⟩
            rw [List.get?_eq_none.mpr (by omega)] at hget
            cases hget
          · rintro ⟨t, hget, hpar⟩
            rw [List.get?_eq_none.mpr (by simp [addChildAt_length]; omega)] at hget
            cases hget
      · intro j hj
        simp at hj
        simp [hj, addChildAt_length]

theorem inv_foldl (records : List (String × Int × String × Option String)) :
    ∀ {st : PTState}, Inv st → Inv (records.foldl applyRecord st) := by
  induction records with
  | nil => intro st h; exact h
  | cons r rs ih => intro st h; exact ih (inv_applyRecord h r)

theorem foldl_arena_length
    (records : List (String × Int × String × Option String)) :
    ∀ st : PTState,
      (records.foldl applyRecord st).arena.length =
        st.arena.length +
          records.countP (fun r => !isSubstrOf r.2.2.1 "variable") := by
  induction records with
  | nil => intro st; simp
  | cons r rs ih =>
    intro st
    rw [List.foldl_cons, ih, applyRecord_arena_length, List.countP_cons]
    by_cases hs : isSubstrOf r.2.2.1 "variable" <;> simp [hs] <;> omega

theorem chainEnd_root (F : Forest) (hdec : ParentsDec F.arena)
    (hr : ∀ i t, F.arena.get? i = some t → t.parent = none → i ∈ F.roots) :
    ∀ (fuel i : Nat), i < F.arena.length → i < fuel →
      parentOf F (chainEnd F fuel i) = none ∧ chainEnd F fuel i ∈ F.roots := by
  intro fuel
  induction fuel with
  | zero => intro i _ h0; omega
  | succ fuel ih =>
    intro i hi _
    cases hp : parentOf F i with
    | none =>
      obtain ⟨t, hget⟩ : ∃ t, F.arena.get? i = some t := by
        cases hg : F.arena.get? i with
        | none =>
          rw [List.get?_eq_none] at hg
          omega
        | some t => exact ⟨t, rfl⟩
      have hpar : t.parent = none := by
        unfold parentOf at hp
        rw [hget] at hp
        simpa using hp
      simp only [chainEnd, hp]
      exact ⟨trivial, hr i t hget hpar⟩
    | some p =>
      obtain ⟨t, hget, hpar⟩ :
          ∃ t, F.arena.get? i = some t ∧ t.parent = some p := by
        unfold parentOf at hp
        cases hg : F.arena.get? i with
        | none => rw [hg] at hp; cases hp
        | some t =>
          rw [hg] at hp
          exact ⟨t, rfl, by simpa using hp⟩
      have hpi : p < i := hdec i t hget p hpar
      simp only [chainEnd, hp]
      exact ih p (by omega) (by omega)

theorem parseRecords_eq_none {l : List String} {line : String}
    (hmem : line ∈ l) (hline : parseTag line = none) :
    parseRecords l = none := by
  induction l with
  | nil => cases hmem
  | cons a l ih =>
    rcases List.mem_cons.mp hmem with h | h
    · subst h
      simp [parseRecords, hline]
    · cases ha : parseTag a <;> simp [parseRecords, ha, ih h]

theorem parseTag_eq_none_of_short {line : String}
    (h : (splitOnChar '\t' line).length < 3) : parseTag line = none := by
  have h5 : ¬ (splitOnChar '\t' line).length = 5 := by omega
  have h3 : ¬ (splitOnChar '\t' line).length ≥ 3 := by omega
  unfold parseTag
  simp only [h5, if_false, h3]
  cases (splitOnChar '\t' line).get? 0 <;>
    cases (splitOnChar '\t' line).get? ((splitOnChar '\t' line).length - 3) <;>
      cases (splitOnChar '\t' line).get? ((splitOnChar '\t' line).length - 2) <;>
        cases (splitOnChar '\t' line).get? ((splitOnChar '\t' line).length - 1) <;>
          simp

/-! ### Lemmas about the preview-sync model -/

theorem syncStep_fixed_of_uninit {st : SyncState} (hconn : st.connected = false)
    (ht : st.timer = none) (e : SyncEvent) : syncStep st e = st := by
  cases e with
  | cursorMoved => simp [syncStep, onCursorPositionChanged, hconn]
  | tick => simp [syncStep, syncTick, ht]

theorem syncRun_fixed_of_uninit {st : SyncState} (hconn : st.connected = false)
    (ht : st.timer = none) (events : List SyncEvent) :
    syncRun events st = st := by
  induction events with
  | nil => rfl
  | cons e es ih =>
    show syncRun es (syncStep st e) = st
    rw [syncStep_fixed_of_uninit hconn ht]
    exact ih

theorem syncRun_append (l₁ l₂ : List SyncEvent) (st : SyncState) :
    syncRun (l₁ ++ l₂) st = syncRun l₂ (syncRun l₁ st) :=
  List.foldl_append _ _ _ _

theorem syncRun_ticks_countdown :
    ∀ (j r : Nat) (st : SyncState), st.timer = some r → j < r →
      syncRun (List.replicate j .tick) st = { st with timer := some (r - j) } := by
  intro j
  induction j with
  | zero =>
    intro r st ht _
    show st = { st with timer := some (r - 0) }
    cases st
    simp only at ht
    subst ht
    simp
  | succ j ih =>
    intro r st ht hj
    obtain ⟨r', rfl⟩ : ∃ r', r = r' + 2 := ⟨r - 2, by omega⟩
    rw [List.replicate_succ]
    show syncRun (List.replicate j .tick) (syncStep st .tick) =
      { st with timer := some (r' + 2 - (j + 1)) }
    have hstep : syncStep st .tick = { st with timer := some (r' + 1) } := by
      simp [syncStep, syncTick, ht]
    rw [hstep, ih (r' + 1) { st with timer := some (r' + 1) } rfl (by omega),
      show r' + 1 - j = r' + 2 - (j + 1) from by omega]

theorem syncRun_ticks_fire :
    ∀ (r : Nat) (st : SyncState), st.cap = true → st.timer = some (r + 1) →
      syncRun (List.replicate (r + 1) .tick) st =
        { st with timer := none, matchingStarts := st.matchingStarts + 1 } := by
  intro r
  induction r with
  | zero =>
    intro st hcap ht
    show syncRun [] (syncStep st .tick) = _
    simp [syncRun, syncStep, syncTick, ht, syncTextToPreview, hcap]
  | succ r ih =>
    intro st hcap ht
    rw [List.replicate_succ]
    show syncRun (List.replicate (r + 1) .tick) (syncStep st .tick) = _
    have hstep : syncStep st .tick = { st with timer := some (r + 1) } := by
      simp [syncStep, syncTick, ht]
    rw [hstep, ih { st with timer := some (r + 1) } hcap rfl]

end Enki

/-- C1: for all integer inputs, `alignScrollAmount` equals the two-step clamp
formula `min (targetHeight - targetCursorBottom - padding)
(max (-targetCursorBottom + targetCursorHeight + padding) raw)` with
`raw = (sourceGlobalTop + sourceCursorBottom) - (targetGlobalTop +
targetCursorBottom)`; in particular on `(0, 100, 0, 50, 500, 20, 10)` it
returns `50`. -/
theorem c1_alignScrollAmount_formula :
    (∀ sgt scb tgt tcb th tch pad : Int,
      Enki.alignScrollAmount sgt scb tgt tcb th tch pad =
        min (th - tcb - pad)
          (max (-tcb + tch + pad) ((sgt + scb) - (tgt + tcb)))) ∧
    Enki.alignScrollAmount 0 100 0 50 500 20 10 = 50 := by
  refine ⟨fun sgt scb tgt tcb th tch pad => rfl, by decide⟩

/-- C10: the returned delta is always at most
`targetHeight - targetCursorBottom - padding` (the min clamp is applied last),
and whenever `targetHeight - targetCursorHeight - 2 * padding < 0` the bottom
constraint wins: the result is strictly below the top-padding lower bound
`-targetCursorBottom + targetCursorHeight + padding`. -/
theorem c10_alignScrollAmount_bottom_precedence
    (sgt scb tgt tcb th tch pad : Int) :
    Enki.alignScrollAmount sgt scb tgt tcb th tch pad ≤ th - tcb - pad ∧
    (th - tch - 2 * pad < 0 →
      Enki.alignScrollAmount sgt scb tgt tcb th tch pad <
        -tcb + tch + pad) := by
  unfold Enki.alignScrollAmount
  constructor
  · exact min_le_left _ _
  · intro h
    have hlt : th - tcb - pad < -tcb + tch + pad := by omega
    calc min (th - tcb - pad)
          (max (-tcb + tch + pad) ((sgt + scb) - (tgt + tcb)))
        ≤ th - tcb - pad := min_le_left _ _
      _ < -tcb + tch + pad := hlt

/-- Witness for C10 at a concrete input with `th - tch - 2*pad < 0`. -/
theorem c10_witness :
    Enki.alignScrollAmount 0 0 0 0 10 20 10 ≤ 10 - 0 - 10 ∧
    ((10 : Int) - 20 - 2 * 10 < 0 →
      Enki.alignScrollAmount 0 0 0 0 10 20 10 < -0 + 20 + 10) :=
  c10_alignScrollAmount_bottom_precedence 0 0 0 0 10 20 10

/-- C3 counterexample: on the record stream
`foo`(line 1, kind `f`), `bar`(line 2, kind `v`), `baz`(line 3, kind `f`,
scope `f`) — rendered as ctags lines — `parseTags` returns a forest with
two roots, not one: `baz`'s scope name `f` matches no ancestor name (the
`lastTag` after skipping `bar` is `foo`, whose name is `"foo"`, not
`"f"`), so `baz` becomes a second root instead of a child of `foo`. -/
theorem c3_counterexample :
    (Enki.parseTags
        "foo\tf.py\tpat\tf\tline:1\nbar\tf.py\tpat\tv\tline:2\nbaz\tf.py\tpat\tf\tline:3\tclass:f").map
      (fun F => F.roots.length) = some 2 ∧
    (Enki.parseTags
        "foo\tf.py\tpat\tf\tline:1\nbar\tf.py\tpat\tv\tline:2\nbaz\tf.py\tpat\tf\tline:3\tclass:f").map
      (fun F => F.roots.length) ≠ some 1 := by
  exact ⟨rfl, by decide⟩

/-- C3 amended: parsing the same record stream with kind `v` ignored yields
a forest with exactly two roots, `foo` at line 1 and `baz` at line 3, both
childless; `bar` appears nowhere.  Skipping `bar` leaves the last-seen
cursor at `foo`, but `baz`'s declared scope name `f` equals no ancestor
name, so the scope lookup fails and `baz` is attached as a root. -/
theorem c3_amended_two_roots :
    Enki.parseTags
        "foo\tf.py\tpat\tf\tline:1\nbar\tf.py\tpat\tv\tline:2\nbaz\tf.py\tpat\tf\tline:3\tclass:f" =
      some ⟨[⟨"foo", 1, none, []⟩, ⟨"baz", 3, none, []⟩], [0, 1]⟩ := by
  rfl

/-- C5 counterexample: the line `x<TAB>5<TAB>s` has three tab-separated
fields — the wrong field count for ctags output — yet `parseTags` succeeds
on it: Python's negative indexing works for any record of at least three
fields, and `int("5")` succeeds, so no error is raised. -/
theorem c5_counterexample :
    Enki.parseTags "x\t5\ts" = some ⟨[⟨"x", 5, none, []⟩], [0]⟩ := by
  rfl

/-- C5 amended: a malformed record only makes `parseTags` fail when its
field accesses or line-number conversion fail; in particular any line with
fewer than three tab-separated fields makes the whole parse fail, while a
wrong-field-count line with at least three fields and a numeric line field
parses without error. -/
theorem c5_amended_short_line_fails (text line : String)
    (hmem : line ∈ Enki.splitlines text)
    (hshort : (Enki.splitOnChar '\t' line).length < 3) :
    Enki.parseTags text = none := by
  unfold Enki.parseTags
  rw [Enki.parseRecords_eq_none hmem (Enki.parseTag_eq_none_of_short hshort)]
  rfl

/-- Witness for C5 amended at the one-field input `"foo"`. -/
theorem c5_amended_witness :
    "foo" ∈ Enki.splitlines "foo" ∧
    (Enki.splitOnChar '\t' "foo").length < 3 ∧
    Enki.parseTags "foo" = none :=
  ⟨by decide, by decide,
    c5_amended_short_line_fails "foo" "foo" (by decide) (by decide)⟩

/-- C9: the ignore check of `parseTags` is substring membership in the
string `'variable'` (since `ignoredTypes = ('variable')` is a string, not a
tuple): a record is skipped — the loop state is left unchanged — exactly
when its kind is a contiguous substring of `"variable"`.  Concretely, the
kinds `v`, `var`, `able` and the empty kind are all skipped, while the
kind `function` (not a substring) is kept. -/
theorem c9_ignore_is_substring_of_variable :
    (∀ (st : Enki.PTState) (name : String) (ln : Int) (kind : String)
        (scope : Option String),
      Enki.applyRecord st (name, ln, kind, scope) = st ↔
        Enki.isSubstrOf kind "variable" = true) ∧
    Enki.parseTags "x\ta\tb\tv\tline:1" = some ⟨[], []⟩ ∧
    Enki.parseTags "x\ta\tb\tvar\tline:1" = some ⟨[], []⟩ ∧
    Enki.parseTags "x\ta\tb\table\tline:1" = some ⟨[], []⟩ ∧
    Enki.parseTags "x\ta\tb\t\tline:1" = some ⟨[], []⟩ ∧
    Enki.parseTags "x\ta\tb\tfunction\tline:1" =
      some ⟨[⟨"x", 1, none, []⟩], [0]⟩ := by
  refine ⟨?_, by rfl, by rfl, by rfl, by rfl, by rfl⟩
  intro st name ln kind scope
  constructor
  · intro h
    by_contra hns
    have hlen := Enki.applyRecord_arena_length st (name, ln, kind, scope)
    rw [h] at hlen
    simp only [Bool.not_eq_true] at hns
    rw [hns] at hlen
    simp at hlen
  · intro hs
    simp [Enki.applyRecord, hs]

/-- C2: latest-wins on the extraction worker.  If request `a` has been
picked up by the worker (`read`) and a different request `b` arrives before
`a`'s completion check, then in the completed run exactly one `tagsReady`
emission happens, it carries the result for `b`'s input, and no emission
for `a`'s input ever occurs: the completion check sees `_haveData`, drops
`a`'s result, reprocesses with `b` and only then emits. -/
theorem c2_latest_wins (a b : String) (hab : a ≠ b) :
    (Enki.threadRun
        [.process a, .read, .process b, .check, .read, .check]
        Enki.threadInit).emitted = [some b] ∧
    some a ∉
      (Enki.threadRun
        [.process a, .read, .process b, .check, .read, .check]
        Enki.threadInit).emitted := by
  refine ⟨rfl, ?_⟩
  intro hmem
  rw [show (Enki.threadRun
        [.process a, .read, .process b, .check, .read, .check]
        Enki.threadInit).emitted = [some b] from rfl] at hmem
  simp at hmem
  exact hab hmem

/-- Witness for C2 at the concrete requests `"A"` and `"B"`. -/
theorem c2_witness :
    (Enki.threadRun
        [.process "A", .read, .process "B", .check, .read, .check]
        Enki.threadInit).emitted = [some "B"] ∧
    some "A" ∉
      (Enki.threadRun
        [.process "A", .read, .process "B", .check, .read, .check]
        Enki.threadInit).emitted :=
  c2_latest_wins "A" "B" (by decide)

/-- C6 counterexample: `ProcessorThread.run` has no exception handler, so a
worker error is not caught at the worker boundary: on the unparsable tool
output `"x"` (one tab-separated field, an `IndexError` inside `parseTags`)
the pass ends in an uncaught `.error` escaping `run`.  The claim's other
half does hold and is visible here: nothing is emitted and the previously
displayed tree is unchanged. -/
theorem c6_counterexample :
    Enki.runPass (some "x") = .error .parseFailure ∧
    Enki.displayAfter ⟨[⟨"prev", 1, none, []⟩], [0]⟩ (Enki.runPass (some "x")) =
      ⟨[⟨"prev", 1, none, []⟩], [0]⟩ := by
  exact ⟨rfl, rfl⟩

/-- C6 amended: errors in the extraction pass are not caught at the worker
boundary — `run` has no handler, so they propagate out of the worker's
`run` method as uncaught failures — but when a pass fails no result is
emitted via `tagsReady` and the previously displayed tag tree is left
unchanged. -/
theorem c6_amended_error_propagates (toolOutput : Option String)
    (e : Enki.ExtractionError) (display : Enki.Forest)
    (h : Enki.processTextE toolOutput = .error e) :
    Enki.runPass toolOutput = .error e ∧
    Enki.displayAfter display (Enki.runPass toolOutput) = display := by
  simp [Enki.runPass, Enki.displayAfter, h]

/-- Witness for C6 amended at tool output `"x"` and a concrete display. -/
theorem c6_amended_witness :
    Enki.processTextE (some "x") = .error .parseFailure ∧
    Enki.runPass (some "x") = .error .parseFailure ∧
    Enki.displayAfter ⟨[], []⟩ (Enki.runPass (some "x")) = ⟨[], []⟩ :=
  ⟨rfl, c6_amended_error_propagates (some "x") .parseFailure ⟨[], []⟩ rfl⟩

/-- C4: for every input on which `parseTags` succeeds, the resulting forest
is well formed: every stored parent index points strictly downwards (so
every parent chain is finite and acyclic), every parent chain ends — within
`i + 1` steps from node `i` — at a parentless node that is listed among the
roots, and the total number of tag nodes equals the number of parsed
records whose kind is not ignored. -/
theorem c4_parse_forest_invariants (text : String) (F : Enki.Forest)
    (records : List (String × Int × String × Option String))
    (hrec : Enki.parseRecords (Enki.splitlines text) = some records)
    (h : Enki.parseTags text = some F) :
    (∀ i t, F.arena.get? i = some t → ∀ p, t.parent = some p → p < i) ∧
    (∀ i, i < F.arena.length →
      Enki.parentOf F (Enki.chainEnd F (i + 1) i) = none ∧
      Enki.chainEnd F (i + 1) i ∈ F.roots) ∧
    F.arena.length =
      records.countP (fun r => !Enki.isSubstrOf r.2.2.1 "variable") := by
  unfold Enki.parseTags at h
  rw [hrec] at h
  simp only [Option.bind_eq_bind, Option.some_bind, Option.pure_def,
    Option.some.injEq] at h
  obtain ⟨hdec, hroots, hlast⟩ :=
    @Enki.inv_foldl records ⟨[], [], none⟩ Enki.inv_init
  subst h
  refine ⟨hdec, ?_, ?_⟩
  · intro i hi
    exact Enki.chainEnd_root _ hdec
      (fun i t hget hpar => (hroots i).mpr ⟨t, hget, hpar⟩) (i + 1) i hi
      (by omega)
  · simpa using Enki.foldl_arena_length records ⟨[], [], none⟩

/-- Witness for C4 at the input `x<TAB>5<TAB>s`. -/
theorem c4_witness :
    Enki.parseRecords (Enki.splitlines "x\t5\ts") =
      some [("x", 5, "x", some "s")] ∧
    Enki.parseTags "x\t5\ts" =
      some ⟨[⟨"x", 5, none, []⟩], [0]⟩ ∧
    ((∀ i t,
        (Enki.Forest.mk [⟨"x", 5, none, []⟩] [0]).arena.get? i = some t →
          ∀ p, t.parent = some p → p < i) ∧
      (∀ i, i < (Enki.Forest.mk [⟨"x", 5, none, []⟩] [0]).arena.length →
        Enki.parentOf (Enki.Forest.mk [⟨"x", 5, none, []⟩] [0])
            (Enki.chainEnd (Enki.Forest.mk [⟨"x", 5, none, []⟩] [0]) (i + 1) i) =
          none ∧
        Enki.chainEnd (Enki.Forest.mk [⟨"x", 5, none, []⟩] [0]) (i + 1) i ∈
          (Enki.Forest.mk [⟨"x", 5, none, []⟩] [0]).roots) ∧
      (Enki.Forest.mk [⟨"x", 5, none, []⟩] [0]).arena.length =
        List.countP (fun r => !Enki.isSubstrOf r.2.2.1 "variable")
          [("x", 5, "x", some "s")]) :=
  ⟨rfl, rfl,
    c4_parse_forest_invariants "x\t5\ts" ⟨[⟨"x", 5, none, []⟩], [0]⟩
      [("x", 5, "x", some "s")] rfl rfl⟩

/-- C7: when the approximate matcher `findApproxTextInTarget` is absent at
startup, the whole sync feature self-disables without crashing:
`PreviewSync.__init__` returns before any setup (nothing connected, no
timer), `syncTextToPreview` returns without action on any state lacking the
capability, the cursor handler is inert because it was never connected, and
consequently no sequence of cursor/clock events ever changes the state or
starts a Matching-phase job. -/
theorem c7_absent_matcher_self_disables :
    (∀ v : Bool, Enki.previewSyncInit false v =
      ⟨false, false, false, v, none, 0⟩) ∧
    (∀ st : Enki.SyncState, st.cap = false →
      Enki.syncTextToPreview st = st) ∧
    (∀ st : Enki.SyncState, st.connected = false →
      Enki.onCursorPositionChanged st = st) ∧
    (∀ (v : Bool) (events : List Enki.SyncEvent),
      Enki.syncRun events (Enki.previewSyncInit false v) =
        Enki.previewSyncInit false v ∧
      (Enki.syncRun events (Enki.previewSyncInit false v)).matchingStarts
        = 0) := by
  refine ⟨fun v => rfl, ?_, ?_, ?_⟩
  · intro st hcap
    simp [Enki.syncTextToPreview, hcap]
  · intro st hconn
    simp [Enki.onCursorPositionChanged, hconn]
  · intro v events
    rw [Enki.syncRun_fixed_of_uninit rfl rfl events]
    exact ⟨rfl, rfl⟩

/-- Witness for C7 at a concrete capability-less state and event list. -/
theorem c7_witness :
    Enki.syncTextToPreview ⟨false, false, false, true, none, 0⟩ =
      ⟨false, false, false, true, none, 0⟩ ∧
    (Enki.syncRun [.cursorMoved, .tick, .cursorMoved]
        (Enki.previewSyncInit false true)).matchingStarts = 0 :=
  ⟨c7_absent_matcher_self_disables.2.1 ⟨false, false, false, true, none, 0⟩ rfl,
    (c7_absent_matcher_self_disables.2.2.2 true
      [.cursorMoved, .tick, .cursorMoved]).2⟩

/-- C8: two cursor-position-changed events inside one debounce window
(`k < 300` ms apart) produce exactly one Matching-phase invocation: after
the second event the timer is running afresh and nothing has fired yet, and
letting the full 300 ms interval elapse then fires exactly once — the
second event restarted the timer rather than stacking another firing. -/
theorem c8_debounce_restart_single_matching (k : Nat) (hk : k < 300) :
    Enki.syncRun
        ([.cursorMoved] ++ List.replicate k .tick ++ [.cursorMoved])
        (Enki.previewSyncInit true true) =
      ⟨true, true, false, true, some 300, 0⟩ ∧
    (Enki.syncRun
        (([.cursorMoved] ++ List.replicate k .tick ++ [.cursorMoved]) ++
          List.replicate 300 .tick)
        (Enki.previewSyncInit true true)).matchingStarts = 1 := by
  have h1 : Enki.syncRun [.cursorMoved] (Enki.previewSyncInit true true) =
      ⟨true, true, false, true, some 300, 0⟩ := rfl
  have h2 : Enki.syncRun ([.cursorMoved] ++ List.replicate k .tick)
      (Enki.previewSyncInit true true) =
      ⟨true, true, false, true, some (300 - k), 0⟩ := by
    rw [Enki.syncRun_append, h1,
      Enki.syncRun_ticks_countdown k 300 ⟨true, true, false, true, some 300, 0⟩
        rfl hk]
  have h3 : Enki.syncRun
      ([.cursorMoved] ++ List.replicate k .tick ++ [.cursorMoved])
      (Enki.previewSyncInit true true) =
      ⟨true, true, false, true, some 300, 0⟩ := by
    rw [Enki.syncRun_append, h2]
    rfl
  refine ⟨h3, ?_⟩
  rw [Enki.syncRun_append, h3,
    Enki.syncRun_ticks_fire 299 ⟨true, true, false, true, some 300, 0⟩ rfl rfl]

/-- Witness for C8 with the two cursor events 100 ms apart. -/
theorem c8_witness :
    Enki.syncRun
        ([.cursorMoved] ++ List.replicate 100 .tick ++ [.cursorMoved])
        (Enki.previewSyncInit true true) =
      ⟨true, true, false, true, some 300, 0⟩ ∧
    (Enki.syncRun
        (([.cursorMoved] ++ List.replicate 100 .tick ++ [.cursorMoved]) ++
          List.replicate 300 .tick)
        (Enki.previewSyncInit true true)).matchingStarts = 1 :=
  c8_debounce_restart_single_matching 100 (by decide)
